import Mathlib

/-!
Verification development for a JSON-file-backed collection store.

The repository contains two near-duplicate variants of the same design:
a class named AsyncJSONFileBasedDB (in src/db.ts) and a class named
SimpleDB (the unnamed source file).  Both are CRUD surfaces over one
named collection inside a single JSON document persisted to one file.

The embedding below models:
  - records as a fixed `id` string plus an association list of opaque
    integer-valued fields (the merge logic never inspects values);
  - the on-disk document as an association list from collection name to
    record list (JavaScript objects preserve insertion order and have
    unique keys);
  - the file state as `Option JContent`: `none` is an absent file, and
    `JContent` distinguishes the falsy JSON scalars (null, false, 0, "")
    from an actual object document, because the source gates every code
    path on JavaScript truthiness of the parsed value;
  - each operation as a pure function from the file state to an
    `OpResult` recording the returned value, the resulting file state,
    and how many `storage.read()` / `storage.write()` calls it made.
-/

/-- A stored record: the mandatory `id` string plus the remaining fields,
kept as an association list with opaque integer values. -/
structure DBRecord where
  id : String
  fields : List (String × Int)
  deriving Repr, DecidableEq

/-- A runtime argument to `update`: statically typed Partial (Omit T id),
but at runtime it may carry an `id` property, so we model that presence
explicitly alongside the partial non-id fields. -/
structure DBPatch where
  idField : Option String
  fields : List (String × Int)
  deriving Repr, DecidableEq

/-- The root document: a mapping from collection name to record list,
as an insertion-ordered association list (JS object semantics). -/
abbrev Doc := List (String × List DBRecord)

/-- A parsed JSON value as far as the store can observe it: one of the
falsy scalars, or an object document.  (The stored file only ever holds
documents; the falsy scalars matter because `read` may return them and
every consumer branches on their truthiness.) -/
inductive JContent where
  | jnull
  | jfalse
  | jzero
  | jempty
  | jdoc (d : Doc)
  deriving Repr, DecidableEq

/-- The persisted file: `none` when the file does not exist. -/
abbrev FileState := Option JContent

/-- The value returned by AsyncJSONFile.read in terms of the file state:
JSON.parse of the current content, or null (`none`) when the file is
absent (the ENOENT branch). -/
def jsRead (fs : FileState) : Option JContent := fs

/-- JavaScript truthiness of the value returned by read: null (either
from ENOENT or from content "null"), false, 0 and "" are falsy; every
object, including the empty document, is truthy. -/
def truthy : Option JContent → Bool
  | none => false
  | some JContent.jnull => false
  | some JContent.jfalse => false
  | some JContent.jzero => false
  | some JContent.jempty => false
  | some (JContent.jdoc _) => true

/-- Association-list lookup, modelling JS property access `o[k]`
(`none` plays the role of undefined). -/
def getAssoc {α : Type} : List (String × α) → String → Option α
  | [], _ => none
  | (k0, v0) :: rest, k => if k0 = k then some v0 else getAssoc rest k

/-- Association-list update, modelling `{...o, [k]: v}`: an existing key
keeps its position and gets the new value, a new key is appended. -/
def setAssoc {α : Type} : List (String × α) → String → α → List (String × α)
  | [], k, v => [(k, v)]
  | (k0, v0) :: rest, k, v =>
    if k0 = k then (k, v) :: rest else (k0, v0) :: setAssoc rest k v

/-- Key removal, modelling `delete o[k]` (JS object keys are unique, so
filtering is equivalent). -/
def removeKey (d : Doc) (k : String) : Doc :=
  d.filter (fun kv => kv.1 != k)

/-- The object spread `{...v, [coll]: l}` where `v` is the value returned
by read: spreading any falsy value contributes no properties. -/
def spreadSet (v : Option JContent) (coll : String) (l : List DBRecord) : Doc :=
  match v with
  | some (JContent.jdoc d) => setAssoc d coll l
  | _ => [(coll, l)]

/-- Array.prototype.findIndex: index of the first element satisfying the
predicate, `none` for the source's -1. -/
def findIndex (p : DBRecord → Bool) : List DBRecord → Option Nat
  | [] => none
  | x :: xs => if p x then some 0 else (findIndex p xs).map (fun n => n + 1)

/-- The shallow merge `{...old, ...patch}` performed by update: fields
present in the patch overwrite, fields absent are preserved, and a
runtime `id` property in the patch overwrites the record's id. -/
def mergeRecord (old : DBRecord) (p : DBPatch) : DBRecord :=
  { id :=
      match p.idField with
      | some s => s
      | none => old.id
  , fields := p.fields.foldl (fun acc kv => setAssoc acc kv.1 kv.2) old.fields }

/-- The outcome of one operation: the value it returns, the file state it
leaves behind, and how many storage.read() / storage.write() calls it
performed. -/
structure OpResult (α : Type) where
  ret : α
  fs : FileState
  reads : Nat
  writes : Nat
  deriving Repr

namespace SimpleDB

/-- getEntitiesState: one storage.read(); the collection's array is read
off the result only when it is truthy (hence an object). -/
def getEntitiesState (coll : String) (fs : FileState) :
    Option JContent × Option (List DBRecord) :=
  let allEntities := jsRead fs
  let collectionEntities :=
    match allEntities with
    | some (JContent.jdoc d) => getAssoc d coll
    | _ => none
  (allEntities, collectionEntities)

/-- SimpleDB.create: one read via getEntitiesState, append (or start) the
collection, one write, return the input record. -/
def create (coll : String) (newEntity : DBRecord) (fs : FileState) :
    OpResult DBRecord :=
  let st := getEntitiesState coll fs
  let newEntities := spreadSet st.1 coll
    (match st.2 with
     | some l => l ++ [newEntity]
     | none => [newEntity])
  { ret := newEntity
  , fs := some (JContent.jdoc newEntities)
  , reads := 1
  , writes := 1 }

/-- SimpleDB.getAll: one read, returns the collection or [] . -/
def getAll (coll : String) (fs : FileState) : OpResult (List DBRecord) :=
  let st := getEntitiesState coll fs
  { ret := st.2.getD [], fs := fs, reads := 1, writes := 0 }

/-- SimpleDB.getByID: one read, forward scan with Array.find for the
first record whose id equals the argument. -/
def getByID (coll : String) (idv : String) (fs : FileState) :
    OpResult (Option DBRecord) :=
  let st := getEntitiesState coll fs
  match st.2 with
  | some l =>
    { ret := l.find? (fun e => e.id == idv), fs := fs, reads := 1, writes := 0 }
  | none => { ret := none, fs := fs, reads := 1, writes := 0 }

/-- SimpleDB.update: one read; not-found (absent collection or id) returns
null with no write; otherwise shallow-merge at the found index, one write. -/
def update (coll : String) (idv : String) (p : DBPatch) (fs : FileState) :
    OpResult (Option DBRecord) :=
  let st := getEntitiesState coll fs
  match st.2 with
  | none => { ret := none, fs := fs, reads := 1, writes := 0 }
  | some l =>
    match findIndex (fun e => e.id == idv) l with
    | none => { ret := none, fs := fs, reads := 1, writes := 0 }
    | some i =>
      let updated := mergeRecord ((l[i]?).getD { id := "", fields := [] }) p
      let l2 := l.set i updated
      let updatedEntities := spreadSet st.1 coll l2
      { ret := some updated
      , fs := some (JContent.jdoc updatedEntities)
      , reads := 1
      , writes := 1 }

/-- SimpleDB.delete: one read; not-found returns false with no write;
otherwise splice out the found index, one write, return true. -/
def delete (coll : String) (idv : String) (fs : FileState) : OpResult Bool :=
  let st := getEntitiesState coll fs
  match st.2 with
  | none => { ret := false, fs := fs, reads := 1, writes := 0 }
  | some l =>
    match findIndex (fun e => e.id == idv) l with
    | none => { ret := false, fs := fs, reads := 1, writes := 0 }
    | some i =>
      let l2 := l.eraseIdx i
      let updatedEntities := spreadSet st.1 coll l2
      { ret := true
      , fs := some (JContent.jdoc updatedEntities)
      , reads := 1
      , writes := 1 }

/-- SimpleDB.deleteEntities: remove the collection key from the given
document, one write, return true unconditionally. -/
def deleteEntities (coll : String) (entities : Doc) : OpResult Bool :=
  let d2 := removeKey entities coll
  { ret := true, fs := some (JContent.jdoc d2), reads := 0, writes := 1 }

/-- SimpleDB.deleteCollection: one read via getEntities; if the parsed
value is truthy (an object) delegate to deleteEntities, else return false
without writing. -/
def deleteCollection (coll : String) (fs : FileState) : OpResult Bool :=
  let entities := jsRead fs
  match entities with
  | some (JContent.jdoc d) =>
    let r := deleteEntities coll d
    { ret := r.ret, fs := r.fs, reads := r.reads + 1, writes := r.writes }
  | _ => { ret := false, fs := fs, reads := 1, writes := 0 }

end SimpleDB

namespace AsyncJSONFileBasedDB

/-- getCollectionData: one storage.read(); on a truthy (object) result
returns `entities[coll] ?? null`, else null. -/
def getCollectionData (coll : String) (fs : FileState) :
    Option (List DBRecord) :=
  match jsRead fs with
  | some (JContent.jdoc d) => getAssoc d coll
  | _ => none

/-- AsyncJSONFileBasedDB.create: reads storage twice (once directly, once
inside getCollectionData), rebuilds the document by truthiness cases, one
write, returns the input record. -/
def create (coll : String) (newEntity : DBRecord) (fs : FileState) :
    OpResult DBRecord :=
  let allEntities := jsRead fs
  let collectionEntities := getCollectionData coll fs
  let newEntities :=
    match allEntities with
    | some (JContent.jdoc d) =>
      match collectionEntities with
      | some l => setAssoc d coll (l ++ [newEntity])
      | none => setAssoc d coll [newEntity]
    | _ => [(coll, [newEntity])]
  { ret := newEntity
  , fs := some (JContent.jdoc newEntities)
  , reads := 2
  , writes := 1 }

/-- AsyncJSONFileBasedDB.getAll: one read via getCollectionData. -/
def getAll (coll : String) (fs : FileState) : OpResult (List DBRecord) :=
  { ret := (getCollectionData coll fs).getD []
  , fs := fs
  , reads := 1
  , writes := 0 }

/-- AsyncJSONFileBasedDB.getByID: one read via getCollectionData, then
Array.find for the first matching id. -/
def getByID (coll : String) (idv : String) (fs : FileState) :
    OpResult (Option DBRecord) :=
  match getCollectionData coll fs with
  | some l =>
    { ret := l.find? (fun e => e.id == idv), fs := fs, reads := 1, writes := 0 }
  | none => { ret := none, fs := fs, reads := 1, writes := 0 }

/-- AsyncJSONFileBasedDB.update: one read via getCollectionData; on
not-found returns null without writing; otherwise a second storage.read()
to rebuild the document, then one write. -/
def update (coll : String) (idv : String) (p : DBPatch) (fs : FileState) :
    OpResult (Option DBRecord) :=
  match getCollectionData coll fs with
  | none => { ret := none, fs := fs, reads := 1, writes := 0 }
  | some l =>
    match findIndex (fun e => e.id == idv) l with
    | none => { ret := none, fs := fs, reads := 1, writes := 0 }
    | some i =>
      let updated := mergeRecord ((l[i]?).getD { id := "", fields := [] }) p
      let l2 := l.set i updated
      let updatedEntities :=
        match jsRead fs with
        | some (JContent.jdoc d) => setAssoc d coll l2
        | _ => [(coll, l2)]
      { ret := some updated
      , fs := some (JContent.jdoc updatedEntities)
      , reads := 2
      , writes := 1 }

/-- AsyncJSONFileBasedDB.delete: one read via getCollectionData; on
not-found returns false without writing; otherwise a second
storage.read(), splice, one write, return true. -/
def delete (coll : String) (idv : String) (fs : FileState) : OpResult Bool :=
  match getCollectionData coll fs with
  | none => { ret := false, fs := fs, reads := 1, writes := 0 }
  | some l =>
    match findIndex (fun e => e.id == idv) l with
    | none => { ret := false, fs := fs, reads := 1, writes := 0 }
    | some i =>
      let l2 := l.eraseIdx i
      let updatedEntities :=
        match jsRead fs with
        | some (JContent.jdoc d) => setAssoc d coll l2
        | _ => [(coll, l2)]
      { ret := true
      , fs := some (JContent.jdoc updatedEntities)
      , reads := 2
      , writes := 1 }

end AsyncJSONFileBasedDB

/-! Helper definitions and lemmas shared by the claim theorems. -/

/-- The record list stored for a collection in a file state (`none` when
the file is absent, the content is not an object, or the key is missing).
This coincides definitionally with getCollectionData and with the second
component of getEntitiesState. -/
def collectionIn (fs : FileState) (coll : String) : Option (List DBRecord) :=
  match fs with
  | some (JContent.jdoc d) => getAssoc d coll
  | _ => none

theorem collectionIn_eq_getCollectionData (fs : FileState) (coll : String) :
    collectionIn fs coll = AsyncJSONFileBasedDB.getCollectionData coll fs := rfl

theorem getEntitiesState_snd (coll : String) (fs : FileState) :
    (SimpleDB.getEntitiesState coll fs).2 = collectionIn fs coll := rfl

theorem getAssoc_setAssoc_self {α : Type} (d : List (String × α)) (k : String)
    (v : α) : getAssoc (setAssoc d k v) k = some v := by
  induction d with
  | nil => simp [setAssoc, getAssoc]
  | cons kv rest ih =>
    by_cases h : kv.1 = k
    · simp [setAssoc, getAssoc, h]
    · simp [setAssoc, getAssoc, h, ih]

theorem getAssoc_setAssoc_ne {α : Type} (d : List (String × α)) (k k2 : String)
    (v : α) (h : k2 ≠ k) : getAssoc (setAssoc d k v) k2 = getAssoc d k2 := by
  induction d with
  | nil =>
    have hne : k ≠ k2 := Ne.symm h
    simp [setAssoc, getAssoc, hne]
  | cons kv rest ih =>
    by_cases hk : kv.1 = k
    · have hne : k ≠ k2 := Ne.symm h
      have h2 : kv.1 ≠ k2 := by rw [hk]; exact hne
      simp [setAssoc, getAssoc, hk, hne, h2]
    · simp [setAssoc, getAssoc, hk, ih]

theorem getAssoc_removeKey_self (d : Doc) (k : String) :
    getAssoc (removeKey d k) k = none := by
  induction d with
  | nil => simp [removeKey, getAssoc]
  | cons kv rest ih =>
    simp only [removeKey] at ih ⊢
    by_cases h : kv.1 = k
    · simpa [List.filter_cons, h] using ih
    · simpa [List.filter_cons, h, getAssoc] using ih

theorem getAssoc_removeKey_ne (d : Doc) (k k2 : String) (h : k2 ≠ k) :
    getAssoc (removeKey d k) k2 = getAssoc d k2 := by
  induction d with
  | nil => simp [removeKey]
  | cons kv rest ih =>
    obtain ⟨k0, v0⟩ := kv
    simp only [removeKey] at ih ⊢
    by_cases hk : k0 = k
    · subst hk
      have h2 : k0 ≠ k2 := Ne.symm h
      simp only [List.filter_cons, bne_self_eq_false, if_neg Bool.false_ne_true,
        getAssoc, if_neg h2]
      exact ih
    · have hb : (k0 != k) = true := bne_iff_ne.mpr hk
      by_cases h2 : k0 = k2
      · subst h2
        simp [List.filter_cons, hb, getAssoc]
      · simp only [List.filter_cons, hb, if_pos rfl, getAssoc, if_neg h2]
        exact ih

theorem findIndex_lt_length {p : DBRecord → Bool} {l : List DBRecord} {j : Nat}
    (h : findIndex p l = some j) : j < l.length := by
  induction l generalizing j with
  | nil => simp [findIndex] at h
  | cons x xs ih =>
    by_cases hp : p x
    · rw [findIndex, if_pos hp] at h
      cases h
      simp
    · simp [findIndex, hp, Option.map_eq_some'] at h
      obtain ⟨j0, hj0, rfl⟩ := h
      have := ih hj0
      simp only [List.length_cons]
      omega

theorem findIndex_found {p : DBRecord → Bool} {l : List DBRecord} {j : Nat}
    (h : findIndex p l = some j) : ∃ x, l[j]? = some x ∧ p x = true := by
  induction l generalizing j with
  | nil => simp [findIndex] at h
  | cons x xs ih =>
    by_cases hp : p x
    · rw [findIndex, if_pos hp] at h
      cases h
      exact ⟨x, by simp, hp⟩
    · simp [findIndex, hp, Option.map_eq_some'] at h
      obtain ⟨j0, hj0, rfl⟩ := h
      obtain ⟨y, hy, hpy⟩ := ih hj0
      exact ⟨y, by simpa using hy, hpy⟩

theorem findIndex_first {p : DBRecord → Bool} {l : List DBRecord} {j : Nat}
    (h : findIndex p l = some j) :
    ∀ k, k < j → ∀ x, l[k]? = some x → p x = false := by
  induction l generalizing j with
  | nil => simp [findIndex] at h
  | cons x xs ih =>
    by_cases hp : p x
    · simp [findIndex, hp] at h
      omega
    · simp [findIndex, hp, Option.map_eq_some'] at h
      obtain ⟨j0, hj0, rfl⟩ := h
      intro k hk y hy
      cases k with
      | zero =>
        simp at hy
        subst hy
        simpa using hp
      | succ k0 =>
        have hk0 : k0 < j0 := by omega
        exact ih hj0 k0 hk0 y (by simpa using hy)

theorem findIndex_none_iff {p : DBRecord → Bool} {l : List DBRecord} :
    findIndex p l = none ↔ ∀ x ∈ l, p x = false := by
  induction l with
  | nil => simp [findIndex]
  | cons x xs ih =>
    by_cases hp : p x
    · simp [findIndex, hp]
    · simp [findIndex, hp, ih]

theorem find?_of_findIndex {p : DBRecord → Bool} {l : List DBRecord} {j : Nat}
    {x : DBRecord} (h : findIndex p l = some j) (hx : l[j]? = some x) :
    l.find? p = some x := by
  induction l generalizing j with
  | nil => simp [findIndex] at h
  | cons y ys ih =>
    by_cases hp : p y
    · simp [findIndex, hp] at h
      subst h
      simp at hx
      subst hx
      simp [List.find?, hp]
    · simp [findIndex, hp, Option.map_eq_some'] at h
      obtain ⟨j0, hj0, rfl⟩ := h
      simp at hx
      simp [List.find?, hp]
      exact ih hj0 hx

theorem countP_eraseIdx_findIndex {p : DBRecord → Bool} {l : List DBRecord}
    {j : Nat} (h : findIndex p l = some j) :
    (l.eraseIdx j).countP p + 1 = l.countP p := by
  induction l generalizing j with
  | nil => simp [findIndex] at h
  | cons x xs ih =>
    by_cases hp : p x
    · simp [findIndex, hp] at h
      subst h
      simp [List.eraseIdx, List.countP_cons, hp]
    · simp [findIndex, hp, Option.map_eq_some'] at h
      obtain ⟨j0, hj0, rfl⟩ := h
      have := ih hj0
      simp [List.eraseIdx, List.countP_cons, hp]
      omega

/-! Characterization equations for the operations, phrased through
collectionIn and spreadSet; each holds definitionally. -/

theorem SimpleDB_create_def (coll : String) (e : DBRecord) (fs : FileState) :
    SimpleDB.create coll e fs =
      { ret := e
      , fs := some (JContent.jdoc (spreadSet fs coll
          (match collectionIn fs coll with
           | some l => l ++ [e]
           | none => [e])))
      , reads := 1
      , writes := 1 } := rfl

theorem SimpleDB_getAll_def (coll : String) (fs : FileState) :
    SimpleDB.getAll coll fs =
      { ret := (collectionIn fs coll).getD []
      , fs := fs
      , reads := 1
      , writes := 0 } := rfl

theorem SimpleDB_getByID_def (coll idv : String) (fs : FileState) :
    SimpleDB.getByID coll idv fs =
      match collectionIn fs coll with
      | some l =>
        { ret := l.find? (fun e => e.id == idv), fs := fs, reads := 1, writes := 0 }
      | none => { ret := none, fs := fs, reads := 1, writes := 0 } := rfl

theorem SimpleDB_update_def (coll idv : String) (p : DBPatch) (fs : FileState) :
    SimpleDB.update coll idv p fs =
      match collectionIn fs coll with
      | none => { ret := none, fs := fs, reads := 1, writes := 0 }
      | some l =>
        match findIndex (fun e => e.id == idv) l with
        | none => { ret := none, fs := fs, reads := 1, writes := 0 }
        | some i =>
          { ret := some (mergeRecord ((l[i]?).getD { id := "", fields := [] }) p)
          , fs := some (JContent.jdoc (spreadSet fs coll
              (l.set i (mergeRecord ((l[i]?).getD { id := "", fields := [] }) p))))
          , reads := 1
          , writes := 1 } := rfl

theorem SimpleDB_delete_def (coll idv : String) (fs : FileState) :
    SimpleDB.delete coll idv fs =
      match collectionIn fs coll with
      | none => { ret := false, fs := fs, reads := 1, writes := 0 }
      | some l =>
        match findIndex (fun e => e.id == idv) l with
        | none => { ret := false, fs := fs, reads := 1, writes := 0 }
        | some i =>
          { ret := true
          , fs := some (JContent.jdoc (spreadSet fs coll (l.eraseIdx i)))
          , reads := 1
          , writes := 1 } := rfl

theorem ABDB_create_def (coll : String) (e : DBRecord) (fs : FileState) :
    AsyncJSONFileBasedDB.create coll e fs =
      { ret := e
      , fs := some (JContent.jdoc (spreadSet fs coll
          (match collectionIn fs coll with
           | some l => l ++ [e]
           | none => [e])))
      , reads := 2
      , writes := 1 } := by
  cases fs with
  | none => rfl
  | some c =>
    cases c with
    | jnull => rfl
    | jfalse => rfl
    | jzero => rfl
    | jempty => rfl
    | jdoc d =>
      cases hg : getAssoc d coll with
      | none =>
        simp [AsyncJSONFileBasedDB.create, AsyncJSONFileBasedDB.getCollectionData,
          jsRead, collectionIn, spreadSet, hg]
      | some l =>
        simp [AsyncJSONFileBasedDB.create, AsyncJSONFileBasedDB.getCollectionData,
          jsRead, collectionIn, spreadSet, hg]

theorem ABDB_getAll_def (coll : String) (fs : FileState) :
    AsyncJSONFileBasedDB.getAll coll fs =
      { ret := (collectionIn fs coll).getD []
      , fs := fs
      , reads := 1
      , writes := 0 } := rfl

theorem ABDB_getByID_def (coll idv : String) (fs : FileState) :
    AsyncJSONFileBasedDB.getByID coll idv fs = SimpleDB.getByID coll idv fs := rfl

theorem ABDB_update_def (coll idv : String) (p : DBPatch) (fs : FileState) :
    AsyncJSONFileBasedDB.update coll idv p fs =
      match collectionIn fs coll with
      | none => { ret := none, fs := fs, reads := 1, writes := 0 }
      | some l =>
        match findIndex (fun e => e.id == idv) l with
        | none => { ret := none, fs := fs, reads := 1, writes := 0 }
        | some i =>
          { ret := some (mergeRecord ((l[i]?).getD { id := "", fields := [] }) p)
          , fs := some (JContent.jdoc (spreadSet fs coll
              (l.set i (mergeRecord ((l[i]?).getD { id := "", fields := [] }) p))))
          , reads := 2
          , writes := 1 } := rfl

theorem ABDB_delete_def (coll idv : String) (fs : FileState) :
    AsyncJSONFileBasedDB.delete coll idv fs =
      match collectionIn fs coll with
      | none => { ret := false, fs := fs, reads := 1, writes := 0 }
      | some l =>
        match findIndex (fun e => e.id == idv) l with
        | none => { ret := false, fs := fs, reads := 1, writes := 0 }
        | some i =>
          { ret := true
          , fs := some (JContent.jdoc (spreadSet fs coll (l.eraseIdx i)))
          , reads := 2
          , writes := 1 } := rfl

theorem SimpleDB_deleteCollection_def (coll : String) (fs : FileState) :
    SimpleDB.deleteCollection coll fs =
      match fs with
      | some (JContent.jdoc d) =>
        { ret := true
        , fs := some (JContent.jdoc (removeKey d coll))
        , reads := 1
        , writes := 1 }
      | _ => { ret := false, fs := fs, reads := 1, writes := 0 } := rfl

/-! Error model for AsyncJSONFile.read: the try block wraps readFile and
JSON.parse; the catch block recovers ENOENT only. -/

/-- An exception thrown inside AsyncJSONFile.read: a filesystem errno
error carrying its code string, or a JSON.parse SyntaxError (whose code
property is undefined). -/
inductive JsError where
  | errno (code : String)
  | decodeError (msg : String)
  deriving Repr, DecidableEq

/-- The e.code property consulted by the catch block. -/
def errCode : JsError → Option String
  | JsError.errno c => some c
  | JsError.decodeError _ => none

namespace AsyncJSONFile

/-- Body of the try block: readFile (outcome fsRes) then JSON.parse
(behaviour parse on the text read); either throw propagates. -/
def readBody (fsRes : Except JsError String)
    (parse : String → Except JsError JContent) : Except JsError JContent :=
  match fsRes with
  | Except.error e => Except.error e
  | Except.ok s => parse s

/-- AsyncJSONFile.read: run the body; the catch block turns an error whose
code is ENOENT into a null return and rethrows everything else unchanged. -/
def read (fsRes : Except JsError String)
    (parse : String → Except JsError JContent) :
    Except JsError (Option JContent) :=
  match readBody fsRes parse with
  | Except.ok v => Except.ok (some v)
  | Except.error e =>
    if errCode e = some "ENOENT" then Except.ok none else Except.error e

end AsyncJSONFile

/-- A CRUD body awaiting one storage.read() whose outcome is r: an
exception from the read propagates unchanged (the CRUD layer has no
try/catch); on success the body runs on the value read. -/
def runWithRead {α : Type} (r : Except JsError (Option JContent))
    (body : Option JContent → α) : Except JsError α :=
  match r with
  | Except.error e => Except.error e
  | Except.ok v => Except.ok (body v)

/-! Read/write count lemmas per operation. -/

theorem SimpleDB_update_counts (coll idv : String) (p : DBPatch)
    (fs : FileState) :
    (SimpleDB.update coll idv p fs).reads = 1 ∧
    (SimpleDB.update coll idv p fs).writes =
      (if (SimpleDB.update coll idv p fs).ret = none then 0 else 1) := by
  rw [SimpleDB_update_def]
  cases hc : collectionIn fs coll with
  | none => simp
  | some l =>
    cases hi : findIndex (fun e => e.id == idv) l with
    | none => simp [hi]
    | some i => simp [hi]

theorem SimpleDB_delete_counts (coll idv : String) (fs : FileState) :
    (SimpleDB.delete coll idv fs).reads = 1 ∧
    (SimpleDB.delete coll idv fs).writes =
      (if (SimpleDB.delete coll idv fs).ret = false then 0 else 1) := by
  rw [SimpleDB_delete_def]
  cases hc : collectionIn fs coll with
  | none => simp
  | some l =>
    cases hi : findIndex (fun e => e.id == idv) l with
    | none => simp [hi]
    | some i => simp [hi]

theorem SimpleDB_deleteCollection_counts (coll : String) (fs : FileState) :
    (SimpleDB.deleteCollection coll fs).reads = 1 ∧
    (SimpleDB.deleteCollection coll fs).writes =
      (if (SimpleDB.deleteCollection coll fs).ret = false then 0 else 1) := by
  rw [SimpleDB_deleteCollection_def]
  cases fs with
  | none => simp
  | some c => cases c <;> simp

theorem ABDB_update_counts (coll idv : String) (p : DBPatch)
    (fs : FileState) :
    (AsyncJSONFileBasedDB.update coll idv p fs).reads =
      (if (AsyncJSONFileBasedDB.update coll idv p fs).ret = none then 1 else 2) ∧
    (AsyncJSONFileBasedDB.update coll idv p fs).writes =
      (if (AsyncJSONFileBasedDB.update coll idv p fs).ret = none then 0 else 1) := by
  rw [ABDB_update_def]
  cases hc : collectionIn fs coll with
  | none => simp
  | some l =>
    cases hi : findIndex (fun e => e.id == idv) l with
    | none => simp [hi]
    | some i => simp [hi]

theorem ABDB_delete_counts (coll idv : String) (fs : FileState) :
    (AsyncJSONFileBasedDB.delete coll idv fs).reads =
      (if (AsyncJSONFileBasedDB.delete coll idv fs).ret = false then 1 else 2) ∧
    (AsyncJSONFileBasedDB.delete coll idv fs).writes =
      (if (AsyncJSONFileBasedDB.delete coll idv fs).ret = false then 0 else 1) := by
  rw [ABDB_delete_def]
  cases hc : collectionIn fs coll with
  | none => simp
  | some l =>
    cases hi : findIndex (fun e => e.id == idv) l with
    | none => simp [hi]
    | some i => simp [hi]

/-- C1 counterexample: in the AsyncJSONFileBasedDB variant, create reads
the stored document twice (once directly and once inside
getCollectionData), refuting the claim that every mutating operation in
every variant performs exactly one read. -/
theorem C1_counterexample :
    (AsyncJSONFileBasedDB.create "users" { id := "a", fields := [] }
      none).reads = 2 ∧
    ¬ (AsyncJSONFileBasedDB.create "users" { id := "a", fields := [] }
      none).reads = 1 := by
  exact ⟨rfl, by decide⟩

/-- C1 (amended): every mutating operation of the SimpleDB variant
performs exactly one read; in the AsyncJSONFileBasedDB variant create
performs two reads, and update/delete perform one read when they detect
nothing to do and two when they proceed to mutate.  In both variants an
operation that proceeds to mutate performs exactly one write and an
operation that detects nothing to do (absent collection or id) performs
zero writes. -/
theorem C1_read_write_discipline (coll idv : String) (e : DBRecord)
    (p : DBPatch) (fs : FileState) :
    (SimpleDB.create coll e fs).reads = 1 ∧
    (SimpleDB.create coll e fs).writes = 1 ∧
    (SimpleDB.update coll idv p fs).reads = 1 ∧
    (SimpleDB.update coll idv p fs).writes =
      (if (SimpleDB.update coll idv p fs).ret = none then 0 else 1) ∧
    (SimpleDB.delete coll idv fs).reads = 1 ∧
    (SimpleDB.delete coll idv fs).writes =
      (if (SimpleDB.delete coll idv fs).ret = false then 0 else 1) ∧
    (SimpleDB.deleteCollection coll fs).reads = 1 ∧
    (SimpleDB.deleteCollection coll fs).writes =
      (if (SimpleDB.deleteCollection coll fs).ret = false then 0 else 1) ∧
    (AsyncJSONFileBasedDB.create coll e fs).reads = 2 ∧
    (AsyncJSONFileBasedDB.create coll e fs).writes = 1 ∧
    (AsyncJSONFileBasedDB.update coll idv p fs).reads =
      (if (AsyncJSONFileBasedDB.update coll idv p fs).ret = none
       then 1 else 2) ∧
    (AsyncJSONFileBasedDB.update coll idv p fs).writes =
      (if (AsyncJSONFileBasedDB.update coll idv p fs).ret = none
       then 0 else 1) ∧
    (AsyncJSONFileBasedDB.delete coll idv fs).reads =
      (if (AsyncJSONFileBasedDB.delete coll idv fs).ret = false
       then 1 else 2) ∧
    (AsyncJSONFileBasedDB.delete coll idv fs).writes =
      (if (AsyncJSONFileBasedDB.delete coll idv fs).ret = false
       then 0 else 1) := by
  refine ⟨rfl, rfl, (SimpleDB_update_counts coll idv p fs).1,
    (SimpleDB_update_counts coll idv p fs).2,
    (SimpleDB_delete_counts coll idv fs).1,
    (SimpleDB_delete_counts coll idv fs).2,
    (SimpleDB_deleteCollection_counts coll fs).1,
    (SimpleDB_deleteCollection_counts coll fs).2,
    ?_, ?_,
    (ABDB_update_counts coll idv p fs).1,
    (ABDB_update_counts coll idv p fs).2,
    (ABDB_delete_counts coll idv fs).1,
    (ABDB_delete_counts coll idv fs).2⟩
  · rw [ABDB_create_def]
  · rw [ABDB_create_def]

/-- C7: when the store's file does not exist every read operation
succeeds: the ENOENT branch of AsyncJSONFile.read returns null instead of
an error, getAll returns the empty sequence, and getByID returns
not-found, in both variants, with no write performed. -/
theorem C7_reads_on_absent_file (coll idv : String)
    (parse : String → Except JsError JContent) :
    AsyncJSONFile.read (Except.error (JsError.errno "ENOENT")) parse =
      Except.ok none ∧
    (SimpleDB.getAll coll none).ret = [] ∧
    (SimpleDB.getByID coll idv none).ret = none ∧
    (AsyncJSONFileBasedDB.getAll coll none).ret = [] ∧
    (AsyncJSONFileBasedDB.getByID coll idv none).ret = none ∧
    (SimpleDB.getAll coll none).writes = 0 ∧
    (SimpleDB.getByID coll idv none).writes = 0 ∧
    (AsyncJSONFileBasedDB.getAll coll none).writes = 0 ∧
    (AsyncJSONFileBasedDB.getByID coll idv none).writes = 0 :=
  ⟨rfl, rfl, rfl, rfl, rfl, rfl, rfl, rfl, rfl⟩

/-- C9: when the file's content decodes to a falsy JSON value (null,
false, 0 or the empty string), no decode error is raised and every
operation behaves as if the file were absent: getAll returns empty,
getByID/update return not-found (with no write), delete and
deleteCollection return false (with no write), getCollectionData sees no
collection, and create produces the same document it would produce on an
absent file. -/
theorem C9_falsy_content_behaves_as_absent (coll idv : String)
    (e : DBRecord) (p : DBPatch) (c : JContent)
    (hc : truthy (some c) = false) (s : String)
    (parse : String → Except JsError JContent)
    (hp : parse s = Except.ok c) :
    AsyncJSONFile.read (Except.ok s) parse = Except.ok (some c) ∧
    (SimpleDB.getAll coll (some c)).ret = [] ∧
    (SimpleDB.getByID coll idv (some c)).ret = none ∧
    (SimpleDB.update coll idv p (some c)).ret = none ∧
    (SimpleDB.update coll idv p (some c)).writes = 0 ∧
    (SimpleDB.delete coll idv (some c)).ret = false ∧
    (SimpleDB.delete coll idv (some c)).writes = 0 ∧
    (SimpleDB.deleteCollection coll (some c)).ret = false ∧
    (SimpleDB.deleteCollection coll (some c)).writes = 0 ∧
    AsyncJSONFileBasedDB.getCollectionData coll (some c) = none ∧
    (SimpleDB.create coll e (some c)).fs = (SimpleDB.create coll e none).fs := by
  have hr : AsyncJSONFile.read (Except.ok s) parse = Except.ok (some c) := by
    simp [AsyncJSONFile.read, AsyncJSONFile.readBody, hp]
  cases c with
  | jdoc d => simp [truthy] at hc
  | jnull => exact ⟨hr, rfl, rfl, rfl, rfl, rfl, rfl, rfl, rfl, rfl, rfl⟩
  | jfalse => exact ⟨hr, rfl, rfl, rfl, rfl, rfl, rfl, rfl, rfl, rfl, rfl⟩
  | jzero => exact ⟨hr, rfl, rfl, rfl, rfl, rfl, rfl, rfl, rfl, rfl, rfl⟩
  | jempty => exact ⟨hr, rfl, rfl, rfl, rfl, rfl, rfl, rfl, rfl, rfl, rfl⟩

/-- C9 witness: the falsy content false (JSON text "false") behaves as an
absent file for a concrete store. -/
theorem C9_falsy_content_witness :
    (SimpleDB.getAll "users" (some JContent.jfalse)).ret = [] ∧
    (SimpleDB.deleteCollection "users" (some JContent.jfalse)).ret = false :=
  ⟨(C9_falsy_content_behaves_as_absent "users" "a" { id := "a", fields := [] }
      { idField := none, fields := [] } JContent.jfalse rfl "false"
      (fun _ => Except.ok JContent.jfalse) rfl).2.1,
   (C9_falsy_content_behaves_as_absent "users" "a" { id := "a", fields := [] }
      { idField := none, fields := [] } JContent.jfalse rfl "false"
      (fun _ => Except.ok JContent.jfalse) rfl).2.2.2.2.2.2.2.1⟩

/-- C6: deleteCollection returns false and performs no write when the
file is absent; when an object document exists it removes the named
collection key (whether or not it was present), performs exactly one
write of the reduced document, returns true, and leaves every other
collection unchanged. -/
theorem C6_deleteCollection (coll : String) (fs : FileState) :
    (fs = none →
      (SimpleDB.deleteCollection coll fs).ret = false ∧
      (SimpleDB.deleteCollection coll fs).writes = 0 ∧
      (SimpleDB.deleteCollection coll fs).fs = fs) ∧
    (∀ d : Doc, fs = some (JContent.jdoc d) →
      (SimpleDB.deleteCollection coll fs).ret = true ∧
      (SimpleDB.deleteCollection coll fs).writes = 1 ∧
      (SimpleDB.deleteCollection coll fs).fs =
        some (JContent.jdoc (removeKey d coll)) ∧
      getAssoc (removeKey d coll) coll = none ∧
      ∀ k, k ≠ coll → getAssoc (removeKey d coll) k = getAssoc d k) := by
  constructor
  · rintro rfl
    exact ⟨rfl, rfl, rfl⟩
  · rintro d rfl
    exact ⟨rfl, rfl, rfl, getAssoc_removeKey_self d coll,
      fun k hk => getAssoc_removeKey_ne d coll k hk⟩

/-- C6 witness: on an absent file deleteCollection returns false; on a
document holding the collections users and posts, deleting users returns
true, users is gone, and posts is untouched. -/
theorem C6_deleteCollection_witness :
    (SimpleDB.deleteCollection "users" none).ret = false ∧
    (SimpleDB.deleteCollection "users"
      (some (JContent.jdoc
        [("users", [{ id := "a", fields := [] }]),
         ("posts", [{ id := "p", fields := [] }])]))).ret = true ∧
    getAssoc (removeKey
      [("users", [({ id := "a", fields := [] } : DBRecord)]),
       ("posts", [{ id := "p", fields := [] }])] "users") "posts" =
      some [{ id := "p", fields := [] }] :=
  ⟨((C6_deleteCollection "users" none).1 rfl).1,
   ((C6_deleteCollection "users" _).2 _ rfl).1,
   by
    rw [((C6_deleteCollection "users"
      (some (JContent.jdoc
        [("users", [{ id := "a", fields := [] }]),
         ("posts", [{ id := "p", fields := [] }])]))).2 _ rfl).2.2.2.2 "posts"
      (by decide)]
    decide⟩

/-! Frame lemmas: a write through spreadSet only touches the target key. -/

theorem collectionIn_spreadSet_self (v : Option JContent) (coll : String)
    (l : List DBRecord) : getAssoc (spreadSet v coll l) coll = some l := by
  cases v with
  | none => simp [spreadSet, getAssoc]
  | some c =>
    cases c with
    | jdoc d => simpa [spreadSet] using getAssoc_setAssoc_self d coll l
    | jnull => simp [spreadSet, getAssoc]
    | jfalse => simp [spreadSet, getAssoc]
    | jzero => simp [spreadSet, getAssoc]
    | jempty => simp [spreadSet, getAssoc]

theorem collectionIn_spreadSet_ne (v : Option JContent) (coll k : String)
    (hk : k ≠ coll) (l : List DBRecord) :
    getAssoc (spreadSet v coll l) k = collectionIn v k := by
  have hck : coll ≠ k := Ne.symm hk
  cases v with
  | none => simp [spreadSet, getAssoc, collectionIn, hck]
  | some c =>
    cases c with
    | jdoc d => simpa [spreadSet, collectionIn] using
        getAssoc_setAssoc_ne d coll k l hk
    | jnull => simp [spreadSet, getAssoc, collectionIn, hck]
    | jfalse => simp [spreadSet, getAssoc, collectionIn, hck]
    | jzero => simp [spreadSet, getAssoc, collectionIn, hck]
    | jempty => simp [spreadSet, getAssoc, collectionIn, hck]

/-! The two variants agree on the returned value and the resulting file
state (they differ only in how many reads they perform). -/

theorem ABDB_update_agrees (coll idv : String) (p : DBPatch)
    (fs : FileState) :
    (AsyncJSONFileBasedDB.update coll idv p fs).ret =
      (SimpleDB.update coll idv p fs).ret ∧
    (AsyncJSONFileBasedDB.update coll idv p fs).fs =
      (SimpleDB.update coll idv p fs).fs := by
  rw [ABDB_update_def, SimpleDB_update_def]
  cases hc : collectionIn fs coll with
  | none => exact ⟨rfl, rfl⟩
  | some l =>
    cases hi : findIndex (fun e => e.id == idv) l with
    | none => simp [hi]
    | some i => simp [hi]

theorem ABDB_delete_agrees (coll idv : String) (fs : FileState) :
    (AsyncJSONFileBasedDB.delete coll idv fs).ret =
      (SimpleDB.delete coll idv fs).ret ∧
    (AsyncJSONFileBasedDB.delete coll idv fs).fs =
      (SimpleDB.delete coll idv fs).fs := by
  rw [ABDB_delete_def, SimpleDB_delete_def]
  cases hc : collectionIn fs coll with
  | none => exact ⟨rfl, rfl⟩
  | some l =>
    cases hi : findIndex (fun e => e.id == idv) l with
    | none => simp [hi]
    | some i => simp [hi]

theorem ABDB_create_agrees (coll : String) (e : DBRecord) (fs : FileState) :
    (AsyncJSONFileBasedDB.create coll e fs).ret =
      (SimpleDB.create coll e fs).ret ∧
    (AsyncJSONFileBasedDB.create coll e fs).fs =
      (SimpleDB.create coll e fs).fs := by
  rw [ABDB_create_def, SimpleDB_create_def]
  exact ⟨rfl, rfl⟩

theorem SimpleDB_create_frame (coll k : String) (hk : k ≠ coll)
    (e : DBRecord) (fs : FileState) :
    collectionIn (SimpleDB.create coll e fs).fs k = collectionIn fs k := by
  rw [SimpleDB_create_def]
  simpa [collectionIn] using
    collectionIn_spreadSet_ne fs coll k hk _

theorem SimpleDB_update_frame (coll k idv : String) (hk : k ≠ coll)
    (p : DBPatch) (fs : FileState) :
    collectionIn (SimpleDB.update coll idv p fs).fs k = collectionIn fs k := by
  rw [SimpleDB_update_def]
  cases hc : collectionIn fs coll with
  | none => rfl
  | some l =>
    cases hi : findIndex (fun e => e.id == idv) l with
    | none => simp [hi]
    | some i =>
      simpa [hi, collectionIn] using
        collectionIn_spreadSet_ne fs coll k hk _

theorem SimpleDB_delete_frame (coll k idv : String) (hk : k ≠ coll)
    (fs : FileState) :
    collectionIn (SimpleDB.delete coll idv fs).fs k = collectionIn fs k := by
  rw [SimpleDB_delete_def]
  cases hc : collectionIn fs coll with
  | none => rfl
  | some l =>
    cases hi : findIndex (fun e => e.id == idv) l with
    | none => simp [hi]
    | some i =>
      simpa [hi, collectionIn] using
        collectionIn_spreadSet_ne fs coll k hk _

/-- C10: any write performed by create, update or delete, in either
variant, leaves every collection other than the store's target collection
mapped to exactly the record sequence it had in the document that was
read; only the target collection's entry changes. -/
theorem C10_only_target_collection_changes (coll k : String)
    (hk : k ≠ coll) (e : DBRecord) (idv : String) (p : DBPatch)
    (fs : FileState) :
    collectionIn (SimpleDB.create coll e fs).fs k = collectionIn fs k ∧
    collectionIn (SimpleDB.update coll idv p fs).fs k = collectionIn fs k ∧
    collectionIn (SimpleDB.delete coll idv fs).fs k = collectionIn fs k ∧
    collectionIn (AsyncJSONFileBasedDB.create coll e fs).fs k =
      collectionIn fs k ∧
    collectionIn (AsyncJSONFileBasedDB.update coll idv p fs).fs k =
      collectionIn fs k ∧
    collectionIn (AsyncJSONFileBasedDB.delete coll idv fs).fs k =
      collectionIn fs k := by
  refine ⟨SimpleDB_create_frame coll k hk e fs,
    SimpleDB_update_frame coll k idv hk p fs,
    SimpleDB_delete_frame coll k idv hk fs, ?_, ?_, ?_⟩
  · rw [(ABDB_create_agrees coll e fs).2]
    exact SimpleDB_create_frame coll k hk e fs
  · rw [(ABDB_update_agrees coll idv p fs).2]
    exact SimpleDB_update_frame coll k idv hk p fs
  · rw [(ABDB_delete_agrees coll idv fs).2]
    exact SimpleDB_delete_frame coll k idv hk fs

/-- C10 witness: deleting record a from users leaves the posts collection
exactly as it was read. -/
theorem C10_only_target_collection_changes_witness :
    collectionIn (SimpleDB.delete "users" "a"
      (some (JContent.jdoc
        [("users", [{ id := "a", fields := [] }]),
         ("posts", [{ id := "p", fields := [] }])]))).fs "posts" =
      collectionIn
        (some (JContent.jdoc
          [("users", [{ id := "a", fields := [] }]),
           ("posts", [{ id := "p", fields := [] }])])) "posts" :=
  (C10_only_target_collection_changes "users" "posts" (by decide)
    { id := "x", fields := [] } "a" { idField := none, fields := [] }
    (some (JContent.jdoc
      [("users", [{ id := "a", fields := [] }]),
       ("posts", [{ id := "p", fields := [] }])]))).2.2.1

/-- C2 counterexample: an update whose patch carries a runtime id field
("b") over the stored record with id "a" returns a record whose id is
"b", so update does alter the id when one is supplied at runtime (the
spread puts the patch last). -/
theorem C2_counterexample :
    ((SimpleDB.update "users" "a" { idField := some "b", fields := [] }
        (some (JContent.jdoc
          [("users", [{ id := "a", fields := [] }])]))).ret.map
      DBRecord.id) = some "b" ∧
    ¬ ((SimpleDB.update "users" "a" { idField := some "b", fields := [] }
        (some (JContent.jdoc
          [("users", [{ id := "a", fields := [] }])]))).ret.map
      DBRecord.id) = some "a" := by
  constructor
  · decide
  · decide

/-- C2 (amended): provided the partial-fields argument carries no id
field at runtime (which the static type Partial of Omit T id guarantees
for well-typed callers), the record returned by update and stored back
has the same id as the record it replaced, in both variants; a runtime id
field, however, overwrites the stored id. -/
theorem C2_id_preserved (coll idv : String) (p : DBPatch) (fs : FileState)
    (l : List DBRecord) (j : Nat) (old : DBRecord)
    (hp : p.idField = none)
    (hl : collectionIn fs coll = some l)
    (hj : findIndex (fun e => e.id == idv) l = some j)
    (hold : l[j]? = some old) :
    (SimpleDB.update coll idv p fs).ret = some (mergeRecord old p) ∧
    (AsyncJSONFileBasedDB.update coll idv p fs).ret =
      some (mergeRecord old p) ∧
    (mergeRecord old p).id = old.id ∧
    collectionIn (SimpleDB.update coll idv p fs).fs coll =
      some (l.set j (mergeRecord old p)) ∧
    (AsyncJSONFileBasedDB.update coll idv p fs).fs =
      (SimpleDB.update coll idv p fs).fs := by
  have hid : (mergeRecord old p).id = old.id := by
    simp [mergeRecord, hp]
  refine ⟨?_, ?_, hid, ?_, (ABDB_update_agrees coll idv p fs).2⟩
  · rw [SimpleDB_update_def, hl]
    simp [hj, hold]
  · rw [(ABDB_update_agrees coll idv p fs).1, SimpleDB_update_def, hl]
    simp [hj, hold]
  · rw [SimpleDB_update_def, hl]
    simp only [hj, hold]
    simpa [collectionIn] using
      collectionIn_spreadSet_self fs coll (l.set j (mergeRecord old p))

/-- C2 witness: patching record a of users with x = 2 (no id in the
patch) keeps id a in the returned record. -/
theorem C2_id_preserved_witness :
    (SimpleDB.update "users" "a" { idField := none, fields := [("x", 2)] }
      (some (JContent.jdoc
        [("users", [{ id := "a", fields := [("x", 1)] }])]))).ret =
      some (mergeRecord { id := "a", fields := [("x", 1)] }
        { idField := none, fields := [("x", 2)] }) ∧
    (mergeRecord { id := "a", fields := [("x", 1)] }
      { idField := none, fields := [("x", 2)] }).id = "a" :=
  ⟨(C2_id_preserved "users" "a" { idField := none, fields := [("x", 2)] }
      (some (JContent.jdoc
        [("users", [{ id := "a", fields := [("x", 1)] }])]))
      [{ id := "a", fields := [("x", 1)] }] 0
      { id := "a", fields := [("x", 1)] } rfl (by decide) (by decide)
      (by decide)).1,
   (C2_id_preserved "users" "a" { idField := none, fields := [("x", 2)] }
      (some (JContent.jdoc
        [("users", [{ id := "a", fields := [("x", 1)] }])]))
      [{ id := "a", fields := [("x", 1)] }] 0
      { id := "a", fields := [("x", 1)] } rfl (by decide) (by decide)
      (by decide)).2.2.1⟩

/-- C5: when the target collection holds several records with the looked
up id, getByID returns the record at the first matching index, update
replaces exactly that index (later indices keep their entries), and
delete removes exactly that index (later entries only shift down), in the
SimpleDB variant; every index before the first match does not carry the
id. -/
theorem C5_first_match_only (coll idv : String) (p : DBPatch)
    (fs : FileState) (l : List DBRecord) (j : Nat)
    (hl : collectionIn fs coll = some l)
    (hj : findIndex (fun e => e.id == idv) l = some j) :
    (∀ k x, k < j → l[k]? = some x → (x.id == idv) = false) ∧
    ∃ old, l[j]? = some old ∧ (old.id == idv) = true ∧
      (SimpleDB.getByID coll idv fs).ret = some old ∧
      (SimpleDB.update coll idv p fs).ret = some (mergeRecord old p) ∧
      collectionIn (SimpleDB.update coll idv p fs).fs coll =
        some (l.set j (mergeRecord old p)) ∧
      collectionIn (SimpleDB.delete coll idv fs).fs coll =
        some (l.eraseIdx j) ∧
      (∀ k, j < k → (l.set j (mergeRecord old p))[k]? = l[k]?) ∧
      (∀ k, j ≤ k → (l.eraseIdx j)[k]? = l[k + 1]?) := by
  obtain ⟨old, hold, hpold⟩ := findIndex_found hj
  have hfirst := findIndex_first hj
  refine ⟨fun k x hk hx => hfirst k hk x hx, old, hold, hpold, ?_, ?_, ?_, ?_,
    ?_, ?_⟩
  · rw [SimpleDB_getByID_def, hl]
    exact find?_of_findIndex hj hold
  · rw [SimpleDB_update_def, hl]
    simp [hj, hold]
  · rw [SimpleDB_update_def, hl]
    simp only [hj, hold]
    simpa [collectionIn] using
      collectionIn_spreadSet_self fs coll (l.set j (mergeRecord old p))
  · rw [SimpleDB_delete_def, hl]
    simp only [hj]
    simpa [collectionIn] using
      collectionIn_spreadSet_self fs coll (l.eraseIdx j)
  · intro k hk
    rw [List.getElem?_set]
    simp [Nat.ne_of_lt hk]
  · intro k hk
    exact List.getElem?_eraseIdx_of_ge l j k hk

/-- C5 witness: with two records both carrying id a, getByID returns the
first, and delete leaves exactly the second. -/
theorem C5_first_match_only_witness :
    (SimpleDB.getByID "users" "a"
      (some (JContent.jdoc [("users",
        [{ id := "a", fields := [("n", 1)] },
         { id := "a", fields := [("n", 2)] }])]))).ret =
      some { id := "a", fields := [("n", 1)] } ∧
    collectionIn (SimpleDB.delete "users" "a"
      (some (JContent.jdoc [("users",
        [{ id := "a", fields := [("n", 1)] },
         { id := "a", fields := [("n", 2)] }])]))).fs "users" =
      some [{ id := "a", fields := [("n", 2)] }] := by
  have h := C5_first_match_only "users" "a" { idField := none, fields := [] }
    (some (JContent.jdoc [("users",
      [{ id := "a", fields := [("n", 1)] },
       { id := "a", fields := [("n", 2)] }])]))
    [{ id := "a", fields := [("n", 1)] },
     { id := "a", fields := [("n", 2)] }] 0 (by decide) (by decide)
  obtain ⟨-, old, hold, -, hget, -, -, hdel, -, -⟩ := h
  have holdv : old = { id := "a", fields := [("n", 1)] } := by
    have := hold
    simp at this
    exact this.symm
  constructor
  · rw [hget, holdv]
  · rw [hdel]
    decide

/-- C3 counterexample: the store does not enforce id uniqueness; with two
records both carrying id a, delete removes only the first, so the
immediately following getByID still returns a record instead of
not-found, refuting the claim for an id that is present more than once. -/
theorem C3_counterexample :
    (SimpleDB.getByID "users" "a"
      (SimpleDB.delete "users" "a"
        (some (JContent.jdoc [("users",
          [{ id := "a", fields := [("n", 1)] },
           { id := "a", fields := [("n", 2)] }])]))).fs).ret =
      some { id := "a", fields := [("n", 2)] } ∧
    ¬ (SimpleDB.getByID "users" "a"
      (SimpleDB.delete "users" "a"
        (some (JContent.jdoc [("users",
          [{ id := "a", fields := [("n", 1)] },
           { id := "a", fields := [("n", 2)] }])]))).fs).ret = none := by
  constructor
  · decide
  · decide

/-- C3 (amended): for every stored document and every id present in the
target collection, delete(id) succeeds, getAll() afterwards is exactly
the previous sequence with the first matching index removed — one record
shorter, remaining records in the same relative order — and, provided the
collection holds at most one record with that id (the caller-maintained
uniqueness invariant), getByID(id) after the delete returns not-found. -/
theorem C3_delete_then_lookup (coll idv : String) (fs : FileState)
    (l : List DBRecord) (j : Nat)
    (hl : collectionIn fs coll = some l)
    (hj : findIndex (fun e => e.id == idv) l = some j) :
    (SimpleDB.delete coll idv fs).ret = true ∧
    (l.countP (fun e => e.id == idv) ≤ 1 →
      (SimpleDB.getByID coll idv (SimpleDB.delete coll idv fs).fs).ret =
        none) ∧
    (SimpleDB.getAll coll fs).ret = l ∧
    (SimpleDB.getAll coll (SimpleDB.delete coll idv fs).fs).ret =
      l.eraseIdx j ∧
    (l.eraseIdx j).length + 1 = l.length ∧
    List.Sublist (l.eraseIdx j) l ∧
    (AsyncJSONFileBasedDB.delete coll idv fs).fs =
      (SimpleDB.delete coll idv fs).fs ∧
    (AsyncJSONFileBasedDB.delete coll idv fs).ret =
      (SimpleDB.delete coll idv fs).ret := by
  have hlen : j < l.length := findIndex_lt_length hj
  have hfs : (SimpleDB.delete coll idv fs).fs =
      some (JContent.jdoc (spreadSet fs coll (l.eraseIdx j))) := by
    rw [SimpleDB_delete_def, hl]
    simp [hj]
  have hcoll : collectionIn (SimpleDB.delete coll idv fs).fs coll =
      some (l.eraseIdx j) := by
    rw [hfs]
    simpa [collectionIn] using
      collectionIn_spreadSet_self fs coll (l.eraseIdx j)
  refine ⟨?_, ?_, ?_, ?_, ?_, List.eraseIdx_sublist l j,
    (ABDB_delete_agrees coll idv fs).2, (ABDB_delete_agrees coll idv fs).1⟩
  · rw [SimpleDB_delete_def, hl]
    simp [hj]
  · intro huniq
    have hcount : (l.eraseIdx j).countP (fun e => e.id == idv) = 0 := by
      have := countP_eraseIdx_findIndex hj
      omega
    have hnone : (l.eraseIdx j).find? (fun e => e.id == idv) = none := by
      rw [List.find?_eq_none]
      intro x hx
      have := List.countP_eq_zero.mp hcount x hx
      simpa using this
    rw [SimpleDB_getByID_def, hcoll]
    exact hnone
  · rw [SimpleDB_getAll_def, hl]
    rfl
  · rw [SimpleDB_getAll_def, hcoll]
    rfl
  · rw [List.length_eraseIdx, if_pos hlen]
    omega

/-- C3 witness: on a collection where id a is unique, deleting it makes
getByID return not-found; on a collection with two records of id a the
unconditional part still applies, and getAll after the delete is exactly
the original sequence with index 0 removed. -/
theorem C3_delete_then_lookup_witness :
    (SimpleDB.delete "users" "a"
      (some (JContent.jdoc [("users",
        [{ id := "a", fields := [] },
         { id := "b", fields := [] }])]))).ret = true ∧
    (SimpleDB.getByID "users" "a"
      (SimpleDB.delete "users" "a"
        (some (JContent.jdoc [("users",
          [{ id := "a", fields := [] },
           { id := "b", fields := [] }])]))).fs).ret = none ∧
    (SimpleDB.getAll "users"
      (SimpleDB.delete "users" "a"
        (some (JContent.jdoc [("users",
          [{ id := "a", fields := [("n", 1)] },
           { id := "a", fields := [("n", 2)] }])]))).fs).ret =
      [{ id := "a", fields := [("n", 2)] }] := by
  have h := C3_delete_then_lookup "users" "a"
    (some (JContent.jdoc [("users",
      [{ id := "a", fields := [] },
       { id := "b", fields := [] }])]))
    [{ id := "a", fields := [] }, { id := "b", fields := [] }] 0
    (by decide) (by decide)
  have h2 := C3_delete_then_lookup "users" "a"
    (some (JContent.jdoc [("users",
      [{ id := "a", fields := [("n", 1)] },
       { id := "a", fields := [("n", 2)] }])]))
    [{ id := "a", fields := [("n", 1)] },
     { id := "a", fields := [("n", 2)] }] 0
    (by decide) (by decide)
  refine ⟨h.1, h.2.1 (by decide), ?_⟩
  rw [h2.2.2.2.1]
  decide

/-- C8: only file-not-found is recovered locally; a filesystem error
whose code is not ENOENT, and every decode failure raised by JSON.parse
on malformed content, propagate unchanged through read and hence to the
caller of the CRUD operation, with no retry and no treatment as empty. -/
theorem C8_errors_propagate (ioe : JsError)
    (hio : ¬ errCode ioe = some "ENOENT") (s m : String)
    (parse : String → Except JsError JContent)
    (hp : parse s = Except.error (JsError.decodeError m))
    (coll idv : String) (q : DBPatch) :
    AsyncJSONFile.read (Except.error ioe) parse = Except.error ioe ∧
    AsyncJSONFile.read (Except.ok s) parse =
      Except.error (JsError.decodeError m) ∧
    runWithRead (AsyncJSONFile.read (Except.error ioe) parse)
      (fun v => (SimpleDB.update coll idv q v).ret) = Except.error ioe ∧
    runWithRead (AsyncJSONFile.read (Except.ok s) parse)
      (fun v => (SimpleDB.getAll coll v).ret) =
      Except.error (JsError.decodeError m) := by
  have h1 : AsyncJSONFile.read (Except.error ioe) parse =
      Except.error ioe := by
    simp [AsyncJSONFile.read, AsyncJSONFile.readBody, hio]
  have h2 : AsyncJSONFile.read (Except.ok s) parse =
      Except.error (JsError.decodeError m) := by
    simp [AsyncJSONFile.read, AsyncJSONFile.readBody, hp, errCode]
  refine ⟨h1, h2, ?_, ?_⟩
  · rw [h1]
    rfl
  · rw [h2]
    rfl

/-- C8 witness: a permission-denied read error and a decode failure both
reach the CRUD caller unchanged. -/
theorem C8_errors_propagate_witness :
    AsyncJSONFile.read (Except.error (JsError.errno "EACCES"))
      (fun _ => Except.error (JsError.decodeError "bad json")) =
      Except.error (JsError.errno "EACCES") ∧
    runWithRead (AsyncJSONFile.read (Except.ok "nonsense")
      (fun _ => Except.error (JsError.decodeError "bad json")))
      (fun v => (SimpleDB.getAll "users" v).ret) =
      Except.error (JsError.decodeError "bad json") := by
  have h := C8_errors_propagate (JsError.errno "EACCES") (by decide)
    "nonsense" "bad json"
    (fun _ => Except.error (JsError.decodeError "bad json")) rfl
    "users" "a" { idField := none, fields := [] }
  exact ⟨h.1, h.2.2.2⟩
